import Mathlib

/-!
Verification of the personal accounting ledger: a shallow embedding of
`models.py` (`TransactionType`, `Transaction`), `storage.py` (`Storage`) and
`app.py` (`AccountingApp`), together with theorems settling the spec claims.

Modelling conventions, read directly off the source:
* Python float amounts and the float balance are modelled as exact rationals.
* A transaction's `date` field is a second-resolution timestamp string
  `"%Y-%m-%d %H:%M:%S"` in the source; for this fixed-width format the
  lexicographic order used by `pd.to_datetime` comparisons coincides with
  chronological order, so the field is modelled as an integer second count,
  and the implicit wall clock `datetime.now()` is an explicit `now` argument.
* `Storage._save` writes the whole state to a JSON file; each storage
  operation below reports in a `Bool` whether it performed that durable write.
* `uuid.uuid4()` is an explicit id argument to the app-level append.
-/

set_option maxRecDepth 4000

namespace E5

/-- `models.TransactionType`: the closed two-variant enum 收入 / 支出. -/
inductive TransactionType where
  | income
  | expense
deriving DecidableEq, Repr

/-- Enum member name (`self.type.name`), the label used by `Transaction.to_dict`. -/
def TransactionType.name : TransactionType → String
  | .income => "INCOME"
  | .expense => "EXPENSE"

/-- Enum member value (`self.type.value`), the label stored in the 类型
DataFrame column and compared against by the reporting queries. -/
def TransactionType.value : TransactionType → String
  | .income => "收入"
  | .expense => "支出"

/-- Enum lookup by member name, `TransactionType[s]`; `none` models the
`KeyError` raised for an unknown name. -/
def typeOfName (s : String) : Option TransactionType :=
  if s = "INCOME" then some .income
  else if s = "EXPENSE" then some .expense
  else none

/-- `models.Transaction`: one immutable ledger record. -/
structure Transaction where
  id : String
  amount : ℚ
  type : TransactionType
  category : String
  date : Int
  note : String
deriving DecidableEq, Repr

/-- The plain dict produced by `Transaction.to_dict` and held inside
`Storage.data`; `note` is an `Option` because `from_dict` reads it with
`data.get("note", "")`, tolerating an absent key. -/
structure TransactionDict where
  id : String
  amount : ℚ
  type : String
  category : String
  date : Int
  note : Option String
deriving DecidableEq, Repr

/-- `Transaction.to_dict`. -/
def Transaction.to_dict (t : Transaction) : TransactionDict :=
  ⟨t.id, t.amount, t.type.name, t.category, t.date, some t.note⟩

/-- `Transaction.from_dict`; the `Except` error models the `KeyError` raised
by `TransactionType[data["type"]]` on an unknown kind label. -/
def Transaction.from_dict (d : TransactionDict) : Except String Transaction :=
  match typeOfName d.type with
  | some ty => .ok ⟨d.id, d.amount, ty, d.category, d.date, d.note.getD ""⟩
  | none => .error "KeyError"

/-- `Storage.data`: the in-memory `{'transactions': [...], 'balance': ...}`
structure, transactions kept in insertion order.  Records are held here in
their typed form; the dict layer is modelled by `SavedData` below. -/
structure LedgerData where
  transactions : List Transaction
  balance : ℚ
deriving DecidableEq, Repr

/-- The fresh state `Storage._load` returns when no data file exists:
`{'transactions': [], 'balance': 0.0}`. -/
def emptyData : LedgerData := ⟨[], 0⟩

/-- The signed contribution of a record to the balance: `+amount` for 收入,
`-amount` for 支出, as applied by `Storage.add_transaction`. -/
def signedAmount (t : Transaction) : ℚ :=
  match t.type with
  | .income => t.amount
  | .expense => -t.amount

/-- `Storage.add_transaction`: append the record, adjust the balance by the
signed amount, then `_save`.  The `Bool` records the durable write. -/
def add_transaction (s : LedgerData) (t : Transaction) : LedgerData × Bool :=
  (⟨s.transactions ++ [t], s.balance + signedAmount t⟩, true)

/-- The scan inside `Storage.delete_transaction`: the first record whose id
matches, paired with the list with that single record removed. -/
def removeFirst (l : List Transaction) (tid : String) :
    Option (Transaction × List Transaction) :=
  match l with
  | [] => none
  | t :: rest =>
    if t.id = tid then some (t, rest)
    else
      match removeFirst rest tid with
      | none => none
      | some (u, rest2) => some (u, t :: rest2)

/-- `Storage.delete_transaction`: result is
(returned bool, state afterwards, whether `_save` ran).  On a miss the loop
falls through: `False` is returned, nothing changes, nothing is written. -/
def delete_transaction (s : LedgerData) (tid : String) :
    Bool × LedgerData × Bool :=
  match removeFirst s.transactions tid with
  | none => (false, s, false)
  | some (t, rest) => (true, ⟨rest, s.balance - signedAmount t⟩, true)

/-- `Storage.get_all_transactions` (on a well-typed state the `from_dict`
materialisation is the identity embedding). -/
def get_all_transactions (s : LedgerData) : List Transaction := s.transactions

/-- `Storage.get_balance`: O(1) read of the maintained scalar. -/
def get_balance (s : LedgerData) : ℚ := s.balance

/-- The serialized form `Storage._save` writes out: the list of transaction
dicts plus the balance scalar. -/
structure SavedData where
  transactions : List TransactionDict
  balance : ℚ
deriving DecidableEq, Repr

/-- Serialization half of the round trip: `Storage.data` as written by
`_save` (records pass through `Transaction.to_dict`). -/
def saveData (s : LedgerData) : SavedData :=
  ⟨s.transactions.map Transaction.to_dict, s.balance⟩

/-- Left-to-right materialisation of stored dicts, as in
`[Transaction.from_dict(t) for t in self.data['transactions']]`; the first
bad record aborts the comprehension. -/
def loadTxs : List TransactionDict → Except String (List Transaction)
  | [] => .ok []
  | d :: rest => do
    let t ← Transaction.from_dict d
    let ts ← loadTxs rest
    return t :: ts

/-- Deserialization half of the round trip: `_load` followed by typed
materialisation of every record. -/
def loadData (d : SavedData) : Except String LedgerData := do
  let ts ← loadTxs d.transactions
  return ⟨ts, d.balance⟩

/-- `AccountingApp.add_transaction`.  The generated uuid and the creation
time are explicit arguments.  Returns (result, state afterwards, whether a
durable write ran); on `amount <= 0` the `ValueError` is raised before any
record is created, so the state is untouched and nothing is written. -/
def app_add_transaction (s : LedgerData) (amount : ℚ)
    (trans_type : TransactionType) (category : String) (note : String)
    (tid : String) (now : Int) :
    Except String Transaction × LedgerData × Bool :=
  if amount ≤ 0 then (.error "金额必须大于0", s, false)
  else
    let t : Transaction := ⟨tid, amount, trans_type, category, now, note⟩
    let r := add_transaction s t
    (.ok t, r.1, r.2)

/-- One mutation issued to the app, with the environment-supplied uuid and
clock reading attached. -/
inductive Op where
  | append (amount : ℚ) (ty : TransactionType) (category note tid : String)
      (ts : Int)
  | remove (tid : String)

/-- Effect of one mutation on the stored state (a failed append leaves the
state as it was). -/
def applyOp (s : LedgerData) : Op → LedgerData
  | .append a ty c n tid ts => (app_add_transaction s a ty c n tid ts).2.1
  | .remove tid => (delete_transaction s tid).2.1

/-- A whole session: mutations applied in order from the empty state. -/
def runOps (ops : List Op) : LedgerData := ops.foldl applyOp emptyData

/-- Sum of the 金额 column over a list of records. -/
def sumAmounts (l : List Transaction) : ℚ := (l.map Transaction.amount).sum

/-- Sum of the amounts of the 收入 records in `l`. -/
def incomeSum (l : List Transaction) : ℚ :=
  sumAmounts (l.filter fun t => t.type == TransactionType.income)

/-- Sum of the amounts of the 支出 records in `l`. -/
def expenseSum (l : List Transaction) : ℚ :=
  sumAmounts (l.filter fun t => t.type == TransactionType.expense)

def secondsPerDay : Int := 86400

/-- The window filter `df[df["日期"] >= datetime.now() - timedelta(days=days)]`
shared by all three reports.  Note the source applies only this lower bound;
no upper bound at `now` is imposed. -/
def windowFilter (s : LedgerData) (now : Int) (days : Int) : List Transaction :=
  s.transactions.filter fun t => decide (now - days * secondsPerDay ≤ t.date)

/-- Result of `AccountingApp.get_summary`. -/
structure Summary where
  total_income : ℚ
  total_expense : ℚ
  balance : ℚ
  count : Nat
deriving DecidableEq, Repr

/-- `AccountingApp.get_summary`: early-out on an empty ledger, otherwise sum
收入 and 支出 amounts over the windowed records and count them. -/
def get_summary (s : LedgerData) (now : Int) (days : Int) : Summary :=
  if s.transactions.isEmpty then ⟨0, 0, 0, 0⟩
  else
    let period := windowFilter s now days
    let income := incomeSum period
    let expense := expenseSum period
    ⟨income, expense, income - expense, period.length⟩

/-- `round(x, 2)` on the 占比 column: round to two decimal places.  (The
claims settled here never hit a tie, so the tie-breaking convention of the
float rounding is immaterial.) -/
def round2 (x : ℚ) : ℚ := ((round (x * 100) : ℤ) : ℚ) / 100

/-- Per-category amount sum within `l` (one cell of the groupby aggregate). -/
def catSum (l : List Transaction) (c : String) : ℚ :=
  sumAmounts (l.filter fun t => t.category == c)

/-- Per-category record count within `l` (the 笔数 cell). -/
def catCount (l : List Transaction) (c : String) : Nat :=
  (l.filter fun t => t.category == c).length

/-- One row of the `get_category_stats` result:
分类 / 金额 / 笔数 / 占比. -/
structure CategoryStat where
  category : String
  amount : ℚ
  count : Nat
  share : ℚ
deriving DecidableEq, Repr

/-- Descending comparison on the grouped 金额 column, for
`sort_values("金额", ascending=False)`. -/
def amountGe (a b : String × ℚ × Nat) : Prop := b.2.1 ≤ a.2.1

instance : DecidableRel amountGe := fun a b =>
  inferInstanceAs (Decidable (b.2.1 ≤ a.2.1))

instance : IsTotal (String × ℚ × Nat) amountGe := ⟨fun a b => le_total b.2.1 a.2.1⟩

instance : IsTrans (String × ℚ × Nat) amountGe :=
  ⟨fun _ _ _ h1 h2 => le_trans h2 h1⟩

/-- Code-point lexicographic comparison of character lists. -/
def lexLe : List Char → List Char → Bool
  | [], _ => true
  | _ :: _, [] => false
  | c :: cs, d :: ds =>
    if c < d then true else if d < c then false else lexLe cs ds

/-- Code-point lexicographic order on category labels, the sorted group-key
order of the pandas groupby. -/
def catLe (a b : String) : Prop := lexLe a.data b.data = true

instance : DecidableRel catLe := fun a b =>
  inferInstanceAs (Decidable (lexLe a.data b.data = true))

/-- `groupby("分类")["金额"].agg(["sum", "count"])`: one row per category
present in `l`, keys in sorted order (pandas sorts group keys). -/
def groupRows (l : List Transaction) : List (String × ℚ × Nat) :=
  (((l.map Transaction.category).dedup).insertionSort catLe).map
    fun c => (c, catSum l c, catCount l c)

/-- The kind filter `df_period[df_period["类型"] == trans_type]` applied on
top of the window filter. -/
def kindFiltered (s : LedgerData) (trans_type : String)
    (now days : Int) : List Transaction :=
  (windowFilter s now days).filter fun t => t.type.value == trans_type

/-- `AccountingApp.get_category_stats`: filter to the window and the kind
label, group by 分类, sort by 金额 descending, then attach
占比 = round(金额 / total * 100, 2) where total is the sum of the grouped
金额 column. -/
def get_category_stats (s : LedgerData) (trans_type : String)
    (now days : Int) : List CategoryStat :=
  if s.transactions.isEmpty then []
  else
    let filtered := kindFiltered s trans_type now days
    if filtered.isEmpty then []
    else
      let rows := (groupRows filtered).insertionSort amountGe
      let total := (rows.map fun e => e.2.1).sum
      rows.map fun e => ⟨e.1, e.2.1, e.2.2, round2 (e.2.1 / total * 100)⟩

/-- `.dt.date`: truncation of a timestamp to its calendar date, as a floor
day index (naive local time, no timezone conversion in the source). -/
def dayOf (ts : Int) : Int := Int.fdiv ts secondsPerDay

/-- One row of the `get_daily_trend` result: 日期 / 收入 / 支出 / 净收入. -/
structure TrendRow where
  date : Int
  income : ℚ
  expense : ℚ
  net : ℚ
deriving DecidableEq, Repr

/-- 收入 total of the records of `l` falling on calendar date `d` (a missing
cell of the pivot is `fillna(0)`-ed to `0`, which the empty sum gives). -/
def dayIncome (l : List Transaction) (d : Int) : ℚ :=
  incomeSum (l.filter fun t => dayOf t.date == d)

/-- 支出 total of the records of `l` falling on calendar date `d`. -/
def dayExpense (l : List Transaction) (d : Int) : ℚ :=
  expenseSum (l.filter fun t => dayOf t.date == d)

/-- `AccountingApp.get_daily_trend`: bucket the windowed records by calendar
date, pivot to per-date 收入/支出 totals (0 for a kind absent on a present
date), add 净收入 = 收入 - 支出, dates ascending (the pivot sorts its index);
only dates carrying at least one windowed record appear. -/
def get_daily_trend (s : LedgerData) (now days : Int) : List TrendRow :=
  if s.transactions.isEmpty then []
  else
    let period := windowFilter s now days
    let dates := ((period.map fun t => dayOf t.date).dedup).insertionSort (· ≤ ·)
    dates.map fun d =>
      ⟨d, dayIncome period d, dayExpense period d,
        dayIncome period d - dayExpense period d⟩

/-! ### Helper lemmas -/

/-- Signed total of a record list (the fold the maintained balance tracks). -/
def signedSum (l : List Transaction) : ℚ := (l.map signedAmount).sum

theorem signedSum_append (l1 l2 : List Transaction) :
    signedSum (l1 ++ l2) = signedSum l1 + signedSum l2 := by
  simp [signedSum]

theorem incomeSum_cons (t : Transaction) (l : List Transaction) :
    incomeSum (t :: l) =
      (if t.type = TransactionType.income then t.amount else 0) + incomeSum l := by
  by_cases h : t.type = TransactionType.income <;>
    simp [incomeSum, sumAmounts, List.filter_cons, h]

theorem expenseSum_cons (t : Transaction) (l : List Transaction) :
    expenseSum (t :: l) =
      (if t.type = TransactionType.expense then t.amount else 0) + expenseSum l := by
  by_cases h : t.type = TransactionType.expense <;>
    simp [expenseSum, sumAmounts, List.filter_cons, h]

theorem signedSum_eq (l : List Transaction) :
    signedSum l = incomeSum l - expenseSum l := by
  induction l with
  | nil => simp [signedSum, incomeSum, expenseSum, sumAmounts]
  | cons t rest ih =>
    have hs : signedSum (t :: rest) = signedAmount t + signedSum rest := by
      simp [signedSum]
    rw [hs, incomeSum_cons, expenseSum_cons, ih]
    cases h : t.type <;> simp [signedAmount, h] <;> ring

theorem removeFirst_eq_none (l : List Transaction) (tid : String)
    (h : ∀ t ∈ l, t.id ≠ tid) : removeFirst l tid = none := by
  induction l with
  | nil => rfl
  | cons t rest ih =>
    simp only [removeFirst]
    rw [if_neg (h t (List.mem_cons_self t rest))]
    rw [ih fun u hu => h u (List.mem_cons_of_mem t hu)]

theorem removeFirst_spec {l : List Transaction} {tid : String}
    {t : Transaction} {rest : List Transaction}
    (h : removeFirst l tid = some (t, rest)) :
    t.id = tid ∧ ∃ pre post, (∀ u ∈ pre, u.id ≠ tid) ∧
      l = pre ++ t :: post ∧ rest = pre ++ post := by
  induction l generalizing rest with
  | nil => simp [removeFirst] at h
  | cons a l ih =>
    by_cases ha : a.id = tid
    · rw [removeFirst, if_pos ha] at h
      have h2 := Option.some.inj h
      have hat : a = t := congrArg Prod.fst h2
      have hlr : l = rest := congrArg Prod.snd h2
      subst hat; subst hlr
      exact ⟨ha, [], l, by simp, by simp, by simp⟩
    · rw [removeFirst, if_neg ha] at h
      cases hr : removeFirst l tid with
      | none => rw [hr] at h; exact absurd h (by simp)
      | some p =>
        obtain ⟨u, rest2⟩ := p
        rw [hr] at h
        have hinj := Option.some.inj h
        have h1 : u = t := congrArg Prod.fst hinj
        have h2 : a :: rest2 = rest := congrArg Prod.snd hinj
        subst h1
        obtain ⟨hid, pre, post, hpre, hl, hrest⟩ := ih hr
        refine ⟨hid, a :: pre, post, ?_, by simp [hl], by simp [← h2, hrest]⟩
        intro v hv
        rcases List.mem_cons.mp hv with rfl | hv2
        · exact ha
        · exact hpre v hv2

theorem removeFirst_append (pre : List Transaction) (t : Transaction)
    (post : List Transaction) (tid : String)
    (hpre : ∀ u ∈ pre, u.id ≠ tid) (ht : t.id = tid) :
    removeFirst (pre ++ t :: post) tid = some (t, pre ++ post) := by
  induction pre with
  | nil => simp [removeFirst, ht]
  | cons a pr ih =>
    have hrec := ih fun u hu => hpre u (List.mem_cons_of_mem a hu)
    have hna : a.id ≠ tid := hpre a (List.mem_cons_self a pr)
    simp only [List.cons_append, removeFirst, if_neg hna, List.append_eq, hrec]

theorem removeFirst_signedSum {l : List Transaction} {tid : String}
    {t : Transaction} {rest : List Transaction}
    (h : removeFirst l tid = some (t, rest)) :
    signedSum l = signedAmount t + signedSum rest := by
  obtain ⟨-, pre, post, -, rfl, rfl⟩ := removeFirst_spec h
  have h1 : signedSum (pre ++ t :: post) = signedSum pre + (signedAmount t + signedSum post) := by
    rw [signedSum_append]; simp [signedSum]
  rw [h1, signedSum_append]; ring

/-! ### C1: balance invariant over all operation sequences -/

/-- The balance invariant of the Ledger Store. -/
def balInv (s : LedgerData) : Prop := s.balance = signedSum s.transactions

theorem applyOp_balInv (s : LedgerData) (op : Op) (h : balInv s) :
    balInv (applyOp s op) := by
  cases op with
  | append a ty c n tid ts =>
    by_cases ha : a ≤ 0
    · simpa [applyOp, app_add_transaction, ha] using h
    · simp only [applyOp, app_add_transaction, if_neg ha, add_transaction, balInv,
        signedSum_append]
      rw [h]
      simp [signedSum]
  | remove tid =>
    simp only [applyOp, delete_transaction]
    cases hr : removeFirst s.transactions tid with
    | none => exact h
    | some p =>
      obtain ⟨t, rest⟩ := p
      have hs := removeFirst_signedSum hr
      simp only [balInv] at h ⊢
      rw [h, hs]; ring

/-- C1: for every sequence of append/remove operations starting from the
empty ledger state, the stored balance scalar equals the sum of amounts of
the 收入 records currently present minus the sum of amounts of the 支出
records currently present. -/
theorem C1_balance_invariant (ops : List Op) :
    (runOps ops).balance =
      incomeSum (runOps ops).transactions -
        expenseSum (runOps ops).transactions := by
  have key : ∀ (l : List Op) (s : LedgerData), balInv s → balInv (l.foldl applyOp s) := by
    intro l
    induction l with
    | nil => intro s h; exact h
    | cons op rest ih => intro s h; exact ih _ (applyOp_balInv s op h)
  have h0 : balInv emptyData := by simp [balInv, emptyData, signedSum]
  have hinv : balInv (runOps ops) := key ops emptyData h0
  rw [balInv] at hinv
  rw [hinv]
  exact signedSum_eq _

/-! ### C3: rejection of non-positive amounts -/

/-- C3: appending with `amount <= 0` fails with the ValidationError
("金额必须大于0"), creates no record, leaves the sequence returned by all()
and the balance unchanged, and performs no durable write. -/
theorem C3_nonpositive_amount_rejected (s : LedgerData) (amount : ℚ)
    (ty : TransactionType) (category note tid : String) (now : Int)
    (h : amount ≤ 0) :
    app_add_transaction s amount ty category note tid now =
        (Except.error "金额必须大于0", s, false) ∧
      get_all_transactions
          (app_add_transaction s amount ty category note tid now).2.1 =
        get_all_transactions s ∧
      get_balance (app_add_transaction s amount ty category note tid now).2.1 =
        get_balance s ∧
      (app_add_transaction s amount ty category note tid now).2.2 = false := by
  simp [app_add_transaction, h, get_all_transactions, get_balance]

/-- C3 at `amount = 0`: the append fails and nothing changes. -/
theorem C3_witness :
    ((0 : ℚ) ≤ 0) ∧
      app_add_transaction emptyData 0 TransactionType.expense "餐饮🍜" "" "w3" 0 =
        (Except.error "金额必须大于0", emptyData, false) :=
  ⟨le_refl 0,
    (C3_nonpositive_amount_rejected emptyData 0 TransactionType.expense
      "餐饮🍜" "" "w3" 0 (le_refl 0)).1⟩

/-! ### C4: remove on unknown / known ids -/

theorem removeFirst_none {l : List Transaction} {tid : String}
    (h : removeFirst l tid = none) : ∀ t ∈ l, t.id ≠ tid := by
  induction l with
  | nil => intro t ht; simp at ht
  | cons a rest ih =>
    intro t ht
    by_cases ha : a.id = tid
    · rw [removeFirst, if_pos ha] at h; exact absurd h (by simp)
    · rw [removeFirst, if_neg ha] at h
      cases hr : removeFirst rest tid with
      | none =>
        rcases List.mem_cons.mp ht with rfl | htr
        · exact ha
        · exact ih hr t htr
      | some p =>
        obtain ⟨u, r2⟩ := p
        rw [hr] at h
        exact absurd h (by simp)

/-- C4: removing an id matching no stored record returns false with no state
change and no durable write; removing a matching id returns true, deletes
the (first) matching record, and reverses its signed effect on the balance. -/
theorem C4_remove_semantics (s : LedgerData) (tid : String) :
    ((∀ t ∈ s.transactions, t.id ≠ tid) →
        delete_transaction s tid = (false, s, false)) ∧
      ((∃ t ∈ s.transactions, t.id = tid) →
        (delete_transaction s tid).1 = true ∧
          (delete_transaction s tid).2.2 = true ∧
          ∃ pre t post, t.id = tid ∧ (∀ u ∈ pre, u.id ≠ tid) ∧
            s.transactions = pre ++ t :: post ∧
            (delete_transaction s tid).2.1 =
              ⟨pre ++ post, s.balance - signedAmount t⟩) := by
  constructor
  · intro h
    simp [delete_transaction, removeFirst_eq_none s.transactions tid h]
  · rintro ⟨t0, ht0, hid⟩
    cases hr : removeFirst s.transactions tid with
    | none => exact absurd hid (removeFirst_none hr t0 ht0)
    | some p =>
      obtain ⟨t, rest⟩ := p
      obtain ⟨htid, pre, post, hpre, hl, hrest⟩ := removeFirst_spec hr
      subst hrest
      refine ⟨?_, ?_, pre, t, post, htid, hpre, hl, ?_⟩
      · simp [delete_transaction, hr]
      · simp [delete_transaction, hr]
      · simp [delete_transaction, hr]

/-- C4 on a one-record ledger: an unknown id is a boolean miss, a known id
deletes. -/
theorem C4_witness :
    delete_transaction ⟨[⟨"a", 2, TransactionType.income, "c", 0, ""⟩], 2⟩ "zz" =
        (false, ⟨[⟨"a", 2, TransactionType.income, "c", 0, ""⟩], 2⟩, false) ∧
      (delete_transaction ⟨[⟨"a", 2, TransactionType.income, "c", 0, ""⟩], 2⟩
          "a").1 = true := by
  constructor
  · exact (C4_remove_semantics
      ⟨[⟨"a", 2, TransactionType.income, "c", 0, ""⟩], 2⟩ "zz").1 (by decide)
  · exact ((C4_remove_semantics
      ⟨[⟨"a", 2, TransactionType.income, "c", 0, ""⟩], 2⟩ "a").2 (by decide)).1

/-! ### C10: duplicate ids, first occurrence wins -/

/-- C10: when the stored sequence holds several records sharing an id
(possible for a state loaded from storage, which is not re-validated),
remove deletes only the first occurrence in insertion order, reverses only
that occurrence's signed amount on the balance, returns true, and leaves
every later record — the later duplicates included — in place. -/
theorem C10_duplicate_ids_first_only (pre post : List Transaction)
    (t : Transaction) (bal : ℚ) (tid : String)
    (ht : t.id = tid) (hpre : ∀ u ∈ pre, u.id ≠ tid)
    (_hdup : ∃ u ∈ post, u.id = tid) :
    delete_transaction ⟨pre ++ t :: post, bal⟩ tid =
      (true, ⟨pre ++ post, bal - signedAmount t⟩, true) := by
  simp [delete_transaction, removeFirst_append pre t post tid hpre ht]

/-- C10 on a ledger holding two records with id "d": only the first is
deleted and the duplicate survives. -/
theorem C10_witness :
    delete_transaction ⟨[⟨"d", 1, TransactionType.income, "c", 0, ""⟩,
        ⟨"d", 2, TransactionType.expense, "c", 0, ""⟩], 0⟩ "d" =
      (true, ⟨[⟨"d", 2, TransactionType.expense, "c", 0, ""⟩], -1⟩, true) := by
  have h := C10_duplicate_ids_first_only []
    [⟨"d", 2, TransactionType.expense, "c", 0, ""⟩]
    ⟨"d", 1, TransactionType.income, "c", 0, ""⟩ 0 "d" rfl (by simp)
    ⟨⟨"d", 2, TransactionType.expense, "c", 0, ""⟩, by simp, rfl⟩
  simpa [signedAmount] using h

/-! ### C5: lossless serialization round trip -/

theorem from_dict_to_dict (t : Transaction) :
    Transaction.from_dict (Transaction.to_dict t) = Except.ok t := by
  cases t with
  | mk i a ty c d n => cases ty <;> rfl

theorem loadTxs_map_to_dict (l : List Transaction) :
    loadTxs (l.map Transaction.to_dict) = Except.ok l := by
  induction l with
  | nil => rfl
  | cons t rest ih =>
    rw [List.map_cons, loadTxs, from_dict_to_dict, ih]; rfl

/-- C5: persisting any ledger state and loading it back yields an equal
state — every field of every record (unicode labels and notes included) and
the balance scalar round-trip exactly; equivalently, deserializing the
serialized form of any single record returns an equal record. -/
theorem C5_save_load_roundtrip :
    (∀ s : LedgerData, loadData (saveData s) = Except.ok s) ∧
      (∀ t : Transaction,
        Transaction.from_dict (Transaction.to_dict t) = Except.ok t) := by
  constructor
  · intro s
    cases s with
    | mk ts bal => simp [loadData, saveData, loadTxs_map_to_dict]
  · exact from_dict_to_dict

/-! ### C6: append then immediate remove restores the balance -/

/-- C6: a valid append of any amount and kind followed immediately by
removing the created record by its returned (fresh) id restores the balance
exactly to its pre-append value. -/
theorem C6_append_remove_roundtrip (s : LedgerData) (amount : ℚ)
    (ty : TransactionType) (category note tid : String) (now : Int)
    (hpos : 0 < amount) (hfresh : ∀ u ∈ s.transactions, u.id ≠ tid) :
    get_balance (delete_transaction
        (app_add_transaction s amount ty category note tid now).2.1 tid).2.1 =
      get_balance s := by
  have hnle : ¬ amount ≤ 0 := not_le.mpr hpos
  have hrf := removeFirst_append s.transactions
    ⟨tid, amount, ty, category, now, note⟩ [] tid hfresh rfl
  simp [app_add_transaction, hnle, add_transaction, delete_transaction, hrf,
    get_balance]

/-- C6 on the empty ledger with an income of 5. -/
theorem C6_witness :
    ((0 : ℚ) < 5 ∧ (∀ u ∈ emptyData.transactions, u.id ≠ "x")) ∧
      get_balance (delete_transaction
          (app_add_transaction emptyData 5 TransactionType.income "工资💰" ""
            "x" 0).2.1 "x").2.1 =
        get_balance emptyData :=
  ⟨⟨by norm_num, by simp [emptyData]⟩,
    C6_append_remove_roundtrip emptyData 5 TransactionType.income "工资💰" ""
      "x" 0 (by norm_num) (by simp [emptyData])⟩

/-! ### C2: summary window semantics -/

/-- A state whose single record carries a future timestamp (two days past
`now = 0`), as a state loaded from storage may, since load re-validates
nothing. -/
def futureState : LedgerData :=
  ⟨[⟨"t1", 5, TransactionType.income, "c", 172800, ""⟩], 5⟩

/-- C2 fails as stated: with `now = 0` and `windowDays = -1` the claimed
window `[now + 1 day, now]` is inverted and should match no transaction,
but the source filter imposes no upper bound at `now`, so the future-dated
record is counted and `count` is not `0`. -/
theorem C2_counterexample : (get_summary futureState 0 (-1)).count ≠ 0 := by
  decide

/-- C2 (amended): `summary(windowDays)` counts and sums exactly the
transactions whose timestamp is `>= now - windowDays` — only this lower
bound is applied, with no upper bound at `now`; consequently a zero or
negative window matches nothing exactly when every stored timestamp is
strictly below the window start (as holds for app-created, past-dated
records), and an empty ledger or empty window yields the all-zero result
with `count = 0` rather than an error. -/
theorem C2_summary_window_amended (s : LedgerData) (now days : Int) :
    (∀ t, t ∈ windowFilter s now days ↔
        t ∈ s.transactions ∧ now - days * secondsPerDay ≤ t.date) ∧
      (get_summary s now days).total_income =
        incomeSum (windowFilter s now days) ∧
      (get_summary s now days).total_expense =
        expenseSum (windowFilter s now days) ∧
      (get_summary s now days).balance =
        (get_summary s now days).total_income -
          (get_summary s now days).total_expense ∧
      (get_summary s now days).count = (windowFilter s now days).length ∧
      ((∀ t ∈ s.transactions, t.date < now - days * secondsPerDay) →
        get_summary s now days = ⟨0, 0, 0, 0⟩) := by
  refine ⟨fun t => by simp [windowFilter], ?_⟩
  by_cases he : s.transactions.isEmpty = true
  · have hnil : s.transactions = [] := by
      cases h : s.transactions with
      | nil => rfl
      | cons a l => rw [h] at he; simp at he
    refine ⟨?_, ?_, ?_, ?_, ?_⟩ <;>
      simp [get_summary, he, windowFilter, hnil, incomeSum, expenseSum,
        sumAmounts]
  · refine ⟨?_, ?_, ?_, ?_, ?_⟩
    · simp [get_summary, he]
    · simp [get_summary, he]
    · simp [get_summary, he]
    · simp [get_summary, he]
    · intro hall
      have hwf : windowFilter s now days = [] := by
        rw [windowFilter, List.filter_eq_nil_iff]
        intro t ht
        simp only [decide_eq_true_eq]
        exact not_le.mpr (hall t ht)
      simp [get_summary, he, hwf, incomeSum, expenseSum, sumAmounts]

/-- C2 (amended) at a concrete input: a past-dated record and a zero-day
window give the all-zero summary. -/
theorem C2_witness :
    (∀ t ∈ (⟨[⟨"w2", 3, TransactionType.income, "c", 10, ""⟩], 3⟩ :
        LedgerData).transactions, t.date < 20 - 0 * secondsPerDay) ∧
      get_summary ⟨[⟨"w2", 3, TransactionType.income, "c", 10, ""⟩], 3⟩ 20 0 =
        ⟨0, 0, 0, 0⟩ :=
  ⟨by decide,
    (C2_summary_window_amended
      ⟨[⟨"w2", 3, TransactionType.income, "c", 10, ""⟩], 3⟩ 20 0).2.2.2.2.2
      (by decide)⟩

/-! ### C7: category breakdown -/

theorem isEmpty_false_of_ne_nil {α : Type} {l : List α} (h : l ≠ []) :
    l.isEmpty = false := by
  cases l with
  | nil => exact absurd rfl h
  | cons a m => rfl

theorem mem_kindFiltered {s : LedgerData} {ty : String} {now days : Int}
    {t : Transaction} (h : t ∈ kindFiltered s ty now days) :
    t ∈ s.transactions := by
  have h1 := List.mem_filter.mp h
  exact (List.mem_filter.mp h1.1).1

theorem kindFiltered_transactions_ne {s : LedgerData} {ty : String}
    {now days : Int} (h : kindFiltered s ty now days ≠ []) :
    s.transactions.isEmpty = false := by
  cases hk : kindFiltered s ty now days with
  | nil => exact absurd hk h
  | cons a l =>
    have ha : a ∈ s.transactions :=
      mem_kindFiltered (hk ▸ List.mem_cons_self a l)
    cases ht : s.transactions with
    | nil => rw [ht] at ha; simp at ha
    | cons b m => rfl

theorem get_category_stats_nil2 {s : LedgerData} {ty : String} {now days : Int}
    (h2 : (kindFiltered s ty now days).isEmpty = true) :
    get_category_stats s ty now days = [] := by
  by_cases h1 : s.transactions.isEmpty = true <;>
    simp [get_category_stats, h1, h2]

theorem get_category_stats_eq {s : LedgerData} {ty : String} {now days : Int}
    (h1 : s.transactions.isEmpty = false)
    (h2 : (kindFiltered s ty now days).isEmpty = false) :
    get_category_stats s ty now days =
      ((groupRows (kindFiltered s ty now days)).insertionSort amountGe).map
        fun e => ⟨e.1, e.2.1, e.2.2,
          round2 (e.2.1 /
            ((((groupRows (kindFiltered s ty now days)).insertionSort
              amountGe).map fun e => e.2.1).sum) * 100)⟩ := by
  simp [get_category_stats, h1, h2]

theorem groupRows_ne_nil {F : List Transaction} (hF : F ≠ []) :
    groupRows F ≠ [] := by
  obtain ⟨t, ht⟩ := List.exists_mem_of_ne_nil F hF
  have hc : t.category ∈ F.map Transaction.category := List.mem_map_of_mem _ ht
  have hc2 : t.category ∈ (F.map Transaction.category).dedup :=
    List.mem_dedup.mpr hc
  have hc3 : t.category ∈
      ((F.map Transaction.category).dedup).insertionSort catLe :=
    (List.mem_insertionSort _).mpr hc2
  intro hgnil
  rw [groupRows] at hgnil
  rw [List.map_eq_nil_iff.mp hgnil] at hc3
  simp at hc3

/-- C7: the breakdown groups the window- and kind-filtered records by
category — one row per present category, carrying that category's summed
amount and entry count; 占比 = round(amount / total-of-grouped-amounts * 100, 2);
an empty filtered set yields the empty sequence (no division), and the
result is ordered by summed amount descending. -/
theorem C7_category_breakdown (s : LedgerData) (ty : String) (now days : Int) :
    (kindFiltered s ty now days = [] → get_category_stats s ty now days = []) ∧
      (kindFiltered s ty now days ≠ [] →
        get_category_stats s ty now days ≠ []) ∧
      List.Sorted (fun a b => b.amount ≤ a.amount)
        (get_category_stats s ty now days) ∧
      ((get_category_stats s ty now days).map CategoryStat.category).Perm
        ((kindFiltered s ty now days).map Transaction.category).dedup ∧
      (∀ e ∈ get_category_stats s ty now days,
        e.amount = catSum (kindFiltered s ty now days) e.category ∧
          e.count = catCount (kindFiltered s ty now days) e.category ∧
          e.share = round2 (e.amount /
            (((get_category_stats s ty now days).map
              CategoryStat.amount).sum) * 100)) := by
  by_cases hF : kindFiltered s ty now days = []
  · have hstats : get_category_stats s ty now days = [] :=
      get_category_stats_nil2 (by rw [hF]; rfl)
    refine ⟨fun _ => hstats, fun h => absurd hF h, ?_, ?_, ?_⟩
    · rw [hstats]; exact List.sorted_nil
    · rw [hstats, hF]; simp
    · intro e he; rw [hstats] at he; simp at he
  · have h1 : s.transactions.isEmpty = false := kindFiltered_transactions_ne hF
    have h2 : (kindFiltered s ty now days).isEmpty = false :=
      isEmpty_false_of_ne_nil hF
    have heq := get_category_stats_eq h1 h2
    have hrowsne :
        (groupRows (kindFiltered s ty now days)).insertionSort amountGe ≠ [] := by
      intro hrn
      have hlen := List.length_insertionSort amountGe
        (groupRows (kindFiltered s ty now days))
      rw [hrn] at hlen
      exact groupRows_ne_nil hF (List.length_eq_zero.mp hlen.symm)
    refine ⟨fun h => absurd h hF, ?_, ?_, ?_, ?_⟩
    · rw [heq]
      intro _hne hmapnil
      exact hrowsne (List.map_eq_nil_iff.mp hmapnil)
    · rw [heq]
      exact List.Pairwise.map _ (fun a b hab => hab)
        (List.sorted_insertionSort amountGe _)
    · rw [heq, List.map_map]
      have p1 : (((groupRows (kindFiltered s ty now days)).insertionSort
            amountGe).map fun e => e.1).Perm
          ((groupRows (kindFiltered s ty now days)).map fun e => e.1) :=
        (List.perm_insertionSort amountGe _).map _
      have e2 : ((groupRows (kindFiltered s ty now days)).map fun e => e.1) =
          (((kindFiltered s ty now days).map
            Transaction.category).dedup).insertionSort catLe := by
        rw [groupRows, List.map_map]
        exact List.map_id _
      have p2 : ((((kindFiltered s ty now days).map
            Transaction.category).dedup).insertionSort catLe).Perm
          (((kindFiltered s ty now days).map Transaction.category).dedup) :=
        List.perm_insertionSort _ _
      exact (e2 ▸ p1).trans p2
    · intro e he
      rw [heq] at he
      obtain ⟨row, hrow, rfl⟩ := List.mem_map.mp he
      have hrowg : row ∈ groupRows (kindFiltered s ty now days) :=
        (List.mem_insertionSort _).mp hrow
      obtain ⟨c, hc, hceq⟩ := List.mem_map.mp hrowg
      subst hceq
      have hsum : ((get_category_stats s ty now days).map
          CategoryStat.amount).sum =
          (((groupRows (kindFiltered s ty now days)).insertionSort
            amountGe).map fun e => e.2.1).sum := by
        rw [heq, List.map_map]
        rfl
      exact ⟨rfl, rfl, by rw [hsum]⟩

/-- C7 at concrete inputs: the empty filtered set gives the empty sequence
and a three-record breakdown is amount-descending sorted. -/
theorem C7_witness :
    (kindFiltered emptyData "支出" 0 1 = [] ∧
        get_category_stats emptyData "支出" 0 1 = []) ∧
      List.Sorted (fun a b => b.amount ≤ a.amount)
        (get_category_stats
          ⟨[⟨"1", 20, TransactionType.expense, "餐饮🍜", 0, ""⟩,
            ⟨"2", 35, TransactionType.expense, "餐饮🍜", 0, ""⟩,
            ⟨"3", 25, TransactionType.expense, "交通🚗", 0, ""⟩], -80⟩
          "支出" 0 1) :=
  ⟨⟨by decide, (C7_category_breakdown emptyData "支出" 0 1).1 (by decide)⟩,
    (C7_category_breakdown
      ⟨[⟨"1", 20, TransactionType.expense, "餐饮🍜", 0, ""⟩,
        ⟨"2", 35, TransactionType.expense, "餐饮🍜", 0, ""⟩,
        ⟨"3", 25, TransactionType.expense, "交通🚗", 0, ""⟩], -80⟩
      "支出" 0 1).2.2.1⟩

/-! ### C8: sum of share percentages -/

theorem round2_err (y : ℚ) : |round2 y - y| ≤ 1 / 200 := by
  have h := abs_sub_round (y * 100)
  rw [abs_sub_comm] at h
  have hrw : round2 y - y = (((round (y * 100) : ℤ) : ℚ) - y * 100) / 100 := by
    rw [round2]; ring
  rw [hrw, abs_div, abs_of_pos (by norm_num : (0 : ℚ) < 100)]
  calc |((round (y * 100) : ℤ) : ℚ) - y * 100| / 100 ≤ (1 / 2) / 100 :=
        (div_le_div_iff_of_pos_right (by norm_num)).mpr h
    _ = 1 / 200 := by norm_num

theorem sum_round2_sub (ys : List ℚ) :
    |(ys.map round2).sum - ys.sum| ≤ (ys.length : ℚ) / 200 := by
  induction ys with
  | nil => simp
  | cons y ys ih =>
    simp only [List.map_cons, List.sum_cons, List.length_cons]
    have h1 := round2_err y
    have h2 : |round2 y + (ys.map round2).sum - (y + ys.sum)| ≤
        1 / 200 + (ys.length : ℚ) / 200 := by
      calc |round2 y + (ys.map round2).sum - (y + ys.sum)|
          = |(round2 y - y) + ((ys.map round2).sum - ys.sum)| := by ring_nf
        _ ≤ |round2 y - y| + |(ys.map round2).sum - ys.sum| := abs_add _ _
        _ ≤ 1 / 200 + (ys.length : ℚ) / 200 := add_le_add h1 ih
    have h3 : ((ys.length + 1 : ℕ) : ℚ) / 200 =
        1 / 200 + (ys.length : ℚ) / 200 := by
      push_cast; ring
    rw [h3]
    exact h2

theorem sum_map_mul_const (xs : List ℚ) (c : ℚ) :
    (xs.map fun x => x * c).sum = xs.sum * c := by
  induction xs with
  | nil => simp
  | cons x xs ih =>
    simp only [List.map_cons, List.sum_cons, ih]
    ring

/-- Per-group rounding of exact shares keeps the total within
`n / 200` of 100, for `n` groups with a nonzero positive total. -/
theorem shares_near_100 (xs : List ℚ) (hne : xs ≠ [])
    (hpos : ∀ x ∈ xs, 0 < x) :
    |(xs.map fun x => round2 (x / xs.sum * 100)).sum - 100| ≤
      (xs.length : ℚ) / 200 := by
  have hT : 0 < xs.sum := List.sum_pos xs hpos hne
  have hfun : (fun x => round2 (x / xs.sum * 100)) =
      (round2 ∘ fun x => x * (100 / xs.sum)) := by
    funext x
    simp only [Function.comp]
    congr 1
    ring
  rw [hfun, ← List.map_map]
  have hsum : (xs.map fun x => x * (100 / xs.sum)).sum = 100 := by
    rw [sum_map_mul_const, mul_comm, div_mul_cancel₀ 100 (ne_of_gt hT)]
  have hb := sum_round2_sub (xs.map fun x => x * (100 / xs.sum))
  rw [hsum, List.length_map] at hb
  exact hb

theorem amounts_pos_of_pos {s : LedgerData} {ty : String} {now days : Int}
    (hpos : ∀ t ∈ s.transactions, 0 < t.amount) :
    ∀ x ∈ ((groupRows (kindFiltered s ty now days)).insertionSort
        amountGe).map fun e => e.2.1, 0 < x := by
  intro x hx
  obtain ⟨row, hrow, rfl⟩ := List.mem_map.mp hx
  have hrowg : row ∈ groupRows (kindFiltered s ty now days) :=
    (List.mem_insertionSort _).mp hrow
  obtain ⟨c, hc, hceq⟩ := List.mem_map.mp hrowg
  subst hceq
  have hc2 : c ∈ ((kindFiltered s ty now days).map Transaction.category).dedup :=
    (List.mem_insertionSort _).mp hc
  have hc3 : c ∈ (kindFiltered s ty now days).map Transaction.category :=
    List.mem_dedup.mp hc2
  obtain ⟨t, ht, htc⟩ := List.mem_map.mp hc3
  have htg : t ∈ (kindFiltered s ty now days).filter
      fun u => u.category == c := by
    rw [List.mem_filter]
    exact ⟨ht, by simp [htc]⟩
  have hgposall : ∀ a ∈ ((kindFiltered s ty now days).filter
      fun u => u.category == c).map Transaction.amount, 0 < a := by
    intro a ha
    obtain ⟨u, hu, rfl⟩ := List.mem_map.mp ha
    exact hpos u (mem_kindFiltered (List.mem_filter.mp hu).1)
  have hgne : ((kindFiltered s ty now days).filter
      fun u => u.category == c).map Transaction.amount ≠ [] := by
    intro hnil
    have := List.mem_map_of_mem Transaction.amount htg
    rw [hnil] at this
    simp at this
  exact List.sum_pos _ hgposall hgne

/-- The 23-category counterexample state: one expense of amount 208 and 22
expenses of amount 1, all dated `now = 0`, each in its own category.  The
exact shares are 90.43478... and 0.43478...; every group rounds down by just
under 0.005, so the rounded shares sum to 90.43 + 22 * 0.43 = 99.89. -/
def cex8State : LedgerData :=
  ⟨[⟨"a", 208, TransactionType.expense, "a", 0, ""⟩,
    ⟨"b", 1, TransactionType.expense, "b", 0, ""⟩,
    ⟨"c", 1, TransactionType.expense, "c", 0, ""⟩,
    ⟨"d", 1, TransactionType.expense, "d", 0, ""⟩,
    ⟨"e", 1, TransactionType.expense, "e", 0, ""⟩,
    ⟨"f", 1, TransactionType.expense, "f", 0, ""⟩,
    ⟨"g", 1, TransactionType.expense, "g", 0, ""⟩,
    ⟨"h", 1, TransactionType.expense, "h", 0, ""⟩,
    ⟨"i", 1, TransactionType.expense, "i", 0, ""⟩,
    ⟨"j", 1, TransactionType.expense, "j", 0, ""⟩,
    ⟨"k", 1, TransactionType.expense, "k", 0, ""⟩,
    ⟨"l", 1, TransactionType.expense, "l", 0, ""⟩,
    ⟨"m", 1, TransactionType.expense, "m", 0, ""⟩,
    ⟨"n", 1, TransactionType.expense, "n", 0, ""⟩,
    ⟨"o", 1, TransactionType.expense, "o", 0, ""⟩,
    ⟨"p", 1, TransactionType.expense, "p", 0, ""⟩,
    ⟨"q", 1, TransactionType.expense, "q", 0, ""⟩,
    ⟨"r", 1, TransactionType.expense, "r", 0, ""⟩,
    ⟨"s", 1, TransactionType.expense, "s", 0, ""⟩,
    ⟨"t", 1, TransactionType.expense, "t", 0, ""⟩,
    ⟨"u", 1, TransactionType.expense, "u", 0, ""⟩,
    ⟨"v", 1, TransactionType.expense, "v", 0, ""⟩,
    ⟨"w", 1, TransactionType.expense, "w", 0, ""⟩], 0⟩

/-- The grouped rows of `cex8State`: one row per category, already in both
group-key order and descending amount order. -/
def cex8Rows : List (String × ℚ × Nat) :=
  [("a", (208 : ℚ), 1),
    ("b", (1 : ℚ), 1),
    ("c", (1 : ℚ), 1),
    ("d", (1 : ℚ), 1),
    ("e", (1 : ℚ), 1),
    ("f", (1 : ℚ), 1),
    ("g", (1 : ℚ), 1),
    ("h", (1 : ℚ), 1),
    ("i", (1 : ℚ), 1),
    ("j", (1 : ℚ), 1),
    ("k", (1 : ℚ), 1),
    ("l", (1 : ℚ), 1),
    ("m", (1 : ℚ), 1),
    ("n", (1 : ℚ), 1),
    ("o", (1 : ℚ), 1),
    ("p", (1 : ℚ), 1),
    ("q", (1 : ℚ), 1),
    ("r", (1 : ℚ), 1),
    ("s", (1 : ℚ), 1),
    ("t", (1 : ℚ), 1),
    ("u", (1 : ℚ), 1),
    ("v", (1 : ℚ), 1),
    ("w", (1 : ℚ), 1)]

/-- C8 fails as stated: this non-empty 23-category breakdown has share
percentages summing to 99.89, which misses 100 by 0.11 > 0.1. -/
theorem C8_counterexample :
    get_category_stats cex8State "支出" 0 1 ≠ [] ∧
      ¬ |((get_category_stats cex8State "支出" 0 1).map
          CategoryStat.share).sum - 100| ≤ 1 / 10 := by
  have h1 : cex8State.transactions.isEmpty = false := rfl
  have hfil : kindFiltered cex8State "支出" 0 1 = cex8State.transactions := by
    with_unfolding_all decide
  have h2 : (kindFiltered cex8State "支出" 0 1).isEmpty = false := by
    rw [hfil]; rfl
  have heq := get_category_stats_eq h1 h2
  rw [hfil] at heq
  have hgroup : groupRows cex8State.transactions = cex8Rows := by
    with_unfolding_all decide
  rw [hgroup] at heq
  have hsort : cex8Rows.insertionSort amountGe = cex8Rows := by
    norm_num [cex8Rows, List.insertionSort, List.orderedInsert, amountGe]
  rw [hsort] at heq
  have htotal : (cex8Rows.map fun e => e.2.1).sum = 230 := by
    norm_num [cex8Rows]
  rw [htotal] at heq
  have hroundA : round ((208 : ℚ) / 230 * 100 * 100) = (9043 : ℤ) := by
    with_unfolding_all decide
  have hroundB : round ((1 : ℚ) / 230 * 100 * 100) = (43 : ℤ) := by
    with_unfolding_all decide
  have hsum : ((get_category_stats cex8State "支出" 0 1).map
      CategoryStat.share).sum = 9989 / 100 := by
    rw [heq, List.map_map]
    simp only [cex8Rows, List.map_cons, List.map_nil, Function.comp, round2]
    simp only [hroundA, hroundB]
    norm_num
  constructor
  · intro he
    rw [he] at hsum
    norm_num at hsum
  · intro hc
    rw [hsum, abs_le] at hc
    have h3 := hc.1
    norm_num at h3

/-- C8 (amended): for every non-empty breakdown over positive-amount
records, the share percentages sum to 100 within `n / 200`, where `n` is
the number of categories in the result — so within ±0.1 whenever there are
at most 20 categories; the ±0.1 bound is not available for arbitrarily many
categories. -/
theorem C8_share_sum_amended (s : LedgerData) (ty : String) (now days : Int)
    (hpos : ∀ t ∈ s.transactions, 0 < t.amount)
    (hne : get_category_stats s ty now days ≠ []) :
    |((get_category_stats s ty now days).map CategoryStat.share).sum - 100| ≤
      ((get_category_stats s ty now days).length : ℚ) / 200 := by
  have hF : kindFiltered s ty now days ≠ [] := by
    intro hFnil
    exact hne (get_category_stats_nil2 (by rw [hFnil]; rfl))
  have h1 : s.transactions.isEmpty = false := kindFiltered_transactions_ne hF
  have h2 : (kindFiltered s ty now days).isEmpty = false :=
    isEmpty_false_of_ne_nil hF
  have heq := get_category_stats_eq h1 h2
  have hshares : ((get_category_stats s ty now days).map
      CategoryStat.share).sum =
      ((((groupRows (kindFiltered s ty now days)).insertionSort
        amountGe).map fun e => e.2.1).map fun x =>
          round2 (x / (((groupRows (kindFiltered s ty now days)).insertionSort
            amountGe).map fun e => e.2.1).sum * 100)).sum := by
    rw [heq, List.map_map, List.map_map]
    rfl
  have hlen : (get_category_stats s ty now days).length =
      (((groupRows (kindFiltered s ty now days)).insertionSort
        amountGe).map fun e => e.2.1).length := by
    rw [heq, List.length_map, List.length_map]
  have hxs_ne : (((groupRows (kindFiltered s ty now days)).insertionSort
      amountGe).map fun e => e.2.1) ≠ [] := by
    intro hnil
    rw [heq] at hne
    exact hne (by rw [List.map_eq_nil_iff.mp hnil]; rfl)
  rw [hshares, hlen]
  exact shares_near_100 _ hxs_ne (amounts_pos_of_pos hpos)

/-- C8 (amended) at a concrete input: a two-category breakdown
(68.75 + 31.25 = 100) satisfies the `n / 200` bound. -/
theorem C8_witness :
    ((∀ t ∈ (⟨[⟨"1", 55, TransactionType.expense, "餐饮🍜", 0, ""⟩,
          ⟨"2", 25, TransactionType.expense, "交通🚗", 0, ""⟩], -80⟩ :
        LedgerData).transactions, 0 < t.amount) ∧
        get_category_stats ⟨[⟨"1", 55, TransactionType.expense, "餐饮🍜", 0, ""⟩,
          ⟨"2", 25, TransactionType.expense, "交通🚗", 0, ""⟩], -80⟩
          "支出" 0 1 ≠ []) ∧
      |((get_category_stats ⟨[⟨"1", 55, TransactionType.expense, "餐饮🍜", 0, ""⟩,
          ⟨"2", 25, TransactionType.expense, "交通🚗", 0, ""⟩], -80⟩
          "支出" 0 1).map CategoryStat.share).sum - 100| ≤
        ((get_category_stats ⟨[⟨"1", 55, TransactionType.expense, "餐饮🍜", 0, ""⟩,
          ⟨"2", 25, TransactionType.expense, "交通🚗", 0, ""⟩], -80⟩
          "支出" 0 1).length : ℚ) / 200 :=
  ⟨⟨by decide, by with_unfolding_all decide⟩,
    C8_share_sum_amended
      ⟨[⟨"1", 55, TransactionType.expense, "餐饮🍜", 0, ""⟩,
        ⟨"2", 25, TransactionType.expense, "交通🚗", 0, ""⟩], -80⟩
      "支出" 0 1 (by decide) (by with_unfolding_all decide)⟩

/-! ### C9: daily trend -/

theorem get_daily_trend_eq {s : LedgerData} {now days : Int}
    (h1 : s.transactions.isEmpty = false) :
    get_daily_trend s now days =
      ((((windowFilter s now days).map fun t =>
        dayOf t.date).dedup).insertionSort (· ≤ ·)).map
          fun d => ⟨d, dayIncome (windowFilter s now days) d,
            dayExpense (windowFilter s now days) d,
            dayIncome (windowFilter s now days) d -
              dayExpense (windowFilter s now days) d⟩ := by
  simp [get_daily_trend, h1]

/-- C9: the daily trend buckets the windowed records by calendar date
(timestamp truncated to a date), sums 收入 and 支出 separately per date
(an absent kind on a present date contributing 0), reports
净收入 = 收入 - 支出 per date, lists exactly the dates on which at least one
windowed record exists, without repetition and in ascending order, and an
empty filtered set yields the empty sequence. -/
theorem C9_daily_trend (s : LedgerData) (now days : Int) :
    (windowFilter s now days = [] → get_daily_trend s now days = []) ∧
      List.Sorted (· ≤ ·) ((get_daily_trend s now days).map TrendRow.date) ∧
      ((get_daily_trend s now days).map TrendRow.date).Nodup ∧
      (∀ e ∈ get_daily_trend s now days,
        (∃ t ∈ windowFilter s now days, dayOf t.date = e.date) ∧
          e.income = dayIncome (windowFilter s now days) e.date ∧
          e.expense = dayExpense (windowFilter s now days) e.date ∧
          e.net = e.income - e.expense) ∧
      (∀ t ∈ windowFilter s now days,
        ∃ e ∈ get_daily_trend s now days, e.date = dayOf t.date) := by
  by_cases h1 : s.transactions.isEmpty = true
  · have hnil : s.transactions = [] := by
      cases h : s.transactions with
      | nil => rfl
      | cons a l => rw [h] at h1; simp at h1
    have htr : get_daily_trend s now days = [] := by
      simp [get_daily_trend, h1]
    have hwf : windowFilter s now days = [] := by
      simp [windowFilter, hnil]
    refine ⟨fun _ => htr, ?_, ?_, ?_, ?_⟩
    · rw [htr]; exact List.sorted_nil
    · rw [htr]; simp
    · intro e he; rw [htr] at he; simp at he
    · intro t ht; rw [hwf] at ht; simp at ht
  · have h1f : s.transactions.isEmpty = false := by
      cases hh : s.transactions.isEmpty with
      | false => rfl
      | true => exact absurd hh h1
    have heq := @get_daily_trend_eq s now days h1f
    refine ⟨?_, ?_, ?_, ?_, ?_⟩
    · intro hwf
      rw [heq, hwf]
      simp [List.insertionSort]
    · rw [heq, List.map_map]
      show List.Sorted (· ≤ ·) (List.map id _)
      rw [List.map_id]
      exact List.sorted_insertionSort _ _
    · rw [heq, List.map_map]
      show (List.map id _).Nodup
      rw [List.map_id]
      exact (List.perm_insertionSort _ _).nodup_iff.mpr (List.nodup_dedup _)
    · intro e he
      rw [heq] at he
      obtain ⟨d, hd, rfl⟩ := List.mem_map.mp he
      have hd2 : d ∈ ((windowFilter s now days).map fun t =>
          dayOf t.date).dedup := (List.mem_insertionSort _).mp hd
      obtain ⟨t, ht, htd⟩ := List.mem_map.mp (List.mem_dedup.mp hd2)
      exact ⟨⟨t, ht, htd⟩, rfl, rfl, rfl⟩
    · intro t ht
      refine ⟨⟨dayOf t.date, dayIncome (windowFilter s now days) (dayOf t.date),
        dayExpense (windowFilter s now days) (dayOf t.date),
        dayIncome (windowFilter s now days) (dayOf t.date) -
          dayExpense (windowFilter s now days) (dayOf t.date)⟩, ?_, rfl⟩
      rw [heq]
      exact List.mem_map_of_mem _ ((List.mem_insertionSort _).mpr
        (List.mem_dedup.mpr (List.mem_map_of_mem _ ht)))

/-- C9 at a concrete input: the empty ledger has an empty window and an
empty trend. -/
theorem C9_witness :
    windowFilter emptyData 0 30 = [] ∧ get_daily_trend emptyData 0 30 = [] :=
  ⟨by decide, (C9_daily_trend emptyData 0 30).1 (by decide)⟩

end E5
